import Mathlib

/-!
Verification of the `Proc` process supervisor of `pkg/app/appserver/proc.go`
(skycoin/skywire-mainnet).

The Go code is embedded as a small-step interleaving machine:

* `PState` is the shared mutable state of one `Proc` value together with the
  observable state of its child process and collaborators: the `isRunning`
  int32 flag, the `waitMx` mutex, `waitErr`, the `connOnce` guard, the
  `connCh` one-slot buffered channel (buffer occupancy and closed bit),
  the child-process handle/exit status, the discovery publisher, and the
  resources closed during teardown.  Two fault bits record a
  close-of-closed-channel or send-on-closed-channel runtime fault, which in
  Go would be a panic.
* `PC` gives one constructor per atomic program point of each routine of the
  source: the `Start()` caller, the background goroutine launched by
  `Start()` (its `awaitConn` receive, the kill path, and the
  wait/close/unlock teardown sequence), the `Stop()` caller, the `Wait()`
  caller, an `InjectConn(conn)` caller (its `connOnce.Do` body runs under
  the `sync.Once` mutual-exclusion guarantee, so it is one atomic step),
  and an environment pseudo-thread `envExit` that makes the child process
  exit.
* `stepThread` executes one atomic step of one routine; `none` means the
  routine is blocked (mutex held, channel empty and open, process not yet
  exited) or finished.  A configuration `Cfg` is the shared state plus a
  list of routine program counters; `stepAt` steps the routine at an index
  (a no-op when that routine is blocked), and `run` folds an arbitrary
  schedule, so quantifying over schedules quantifies over interleavings.

`Env` carries the outcomes chosen by the operating system: whether
`cmd.Start()` succeeds, whether `cmd.Process.Signal` succeeds, and the
error returned by `cmd.Wait()` when the child exits.
-/

/-- Errors returned by the supervisor, mirroring `proc.go`:
`errProcAlreadyRunning`, `errProcNotStarted`, an OS spawn error from
`cmd.Start()`, an OS signal-delivery error from `cmd.Process.Signal`,
and a nonzero-exit error from `cmd.Wait()`. -/
inductive Err
  | alreadyRunning
  | notStarted
  | spawnFail
  | signalFail
  | exitFail
deriving DecidableEq, Repr

/-- Outcomes decided by the operating system / child process. -/
structure Env where
  spawnOK : Bool
  sigOK : Bool
  exitRes : Option Err
deriving DecidableEq, Repr

/-- Shared mutable state of one `Proc` plus its observable environment.
Fields mirror `proc.go`: `isRunning` is the atomic int32 flag (`0`/`1` as
`Bool`), `mxLocked` the `waitMx` mutex, `waitErr` the recorded
`cmd.Wait()` result, `onceDone` the `connOnce` guard, `connSet`/`gwBuilt`
the `conn`/`rpcGW` fields, `chBuf`/`chClosed` the one-slot `connCh`
buffer occupancy and closed bit, `spawned` whether `cmd.Start()` succeeded
(so `cmd.Process != nil`), `goLaunched` whether the background goroutine
was launched, `exited`/`killed`/`signaled` the child-process status,
`discOn`/`discStopped` the discovery publisher, and
`connClosed`/`cmClosed`/`lmClosed` the teardown of the proc conn and the
gateway's connection/listener managers.  The two fault bits record a Go
runtime fault on `connCh` (double close, send on closed channel). -/
structure PState where
  isRunning : Bool := false
  mxLocked : Bool := false
  waitErr : Option Err := none
  onceDone : Bool := false
  connSet : Bool := false
  gwBuilt : Bool := false
  chBuf : Bool := false
  chClosed : Bool := false
  spawned : Bool := false
  goLaunched : Bool := false
  exited : Bool := false
  killed : Bool := false
  signaled : Bool := false
  discOn : Bool := false
  discStopped : Bool := false
  connClosed : Bool := false
  cmClosed : Bool := false
  lmClosed : Bool := false
  doubleCloseFault : Bool := false
  sendOnClosedFault : Bool := false
deriving DecidableEq, Repr

/-- `close(p.connCh)`: closing an already-closed channel is a Go runtime
fault, recorded in `doubleCloseFault`. -/
def closeCh (s : PState) : PState :=
  if s.chClosed then { s with doubleCloseFault := true } else { s with chClosed := true }

/-- `p.connCh <- struct{}{}`: a send on a closed channel is a Go runtime
fault, recorded in `sendOnClosedFault`; otherwise the one-slot buffer is
filled. -/
def sendCh (s : PState) : PState :=
  if s.chClosed then { s with sendOnClosedFault := true } else { s with chBuf := true }

/-- `Proc.IsRunning`: `atomic.LoadInt32(&p.isRunning) == 1`. -/
def IsRunning (s : PState) : Bool :=
  s.isRunning

/-- Program counters: one constructor per atomic program point of each
routine of `proc.go`.

`Start()` caller: `stCAS` is the `atomic.CompareAndSwapInt32` check,
`stLock` the `p.waitMx.Lock()`, `stSpawn` the `p.cmd.Start()` call (on
success it also launches the background goroutine), `stSpawnFail` the
`p.waitMx.Unlock()` on spawn failure, `stDone r` the return with result
`r` (`none` = success).

Background goroutine: `bgAwait` is `awaitConn`'s `<-p.connCh` receive;
on a closed-empty channel it takes the kill path `bgKillUnlock`
(`p.cmd.Process.Kill()`) then `bgKillUnlock2` (`p.waitMx.Unlock()`); on a
received value it proceeds to `bgDiscStart` (`p.disc.Start()`),
`bgCmdWait` (`p.waitErr = p.cmd.Wait()`, blocking until the child exits),
`bgCloseConn` (`p.conn.Close()`, tolerating an already-closed error),
`bgCloseCM` (`p.rpcGW.cm.CloseAll()`), `bgCloseLM`
(`p.rpcGW.lm.CloseAll()`), `bgUnlock` (`p.waitMx.Unlock()`), and the
deferred `bgDiscStop` (`p.disc.Stop()`), ending at `bgDone`.

`Stop()` caller: `spCheck` is the `isRunning` load, `spSignal` the
`p.cmd.Process.Signal(os.Interrupt)` (skipped when no process handle
exists), `spLock` the `p.waitMx.Lock()`, then the deferred `spUnlock`
(`p.waitMx.Unlock()`) and `spOnce` (`p.connOnce.Do(close(p.connCh))`),
ending at `spDone r`.

`Wait()` caller: `wCheck` is the `isRunning` load, `wLock` the
`p.waitMx.Lock()`, `wRet` reads `p.waitErr` and performs the deferred
unlock, ending at `wDone r`.

`InjectConn` caller: `inj` is the whole `p.connOnce.Do(...)` call (the
body — store conn, build gateway, send, close — runs under the
`sync.Once` mutual exclusion, hence one atomic step), ending at
`injDone ok`.

Environment: `envExit` makes the spawned child process exit. -/
inductive PC
  | stCAS
  | stLock
  | stSpawn
  | stSpawnFail
  | stDone (r : Option Err)
  | bgAwait
  | bgKillUnlock
  | bgKillUnlock2
  | bgDiscStart
  | bgCmdWait
  | bgCloseConn
  | bgCloseCM
  | bgCloseLM
  | bgUnlock
  | bgDiscStop
  | bgDone
  | spCheck
  | spSignal
  | spLock
  | spUnlock
  | spOnce
  | spDone (r : Option Err)
  | wCheck
  | wLock
  | wRet
  | wDone (r : Option Err)
  | inj
  | injDone (ok : Bool)
  | envExit
  | envDone
deriving DecidableEq, Repr

/-- One atomic step of one routine.  `none` = blocked or finished. -/
def stepThread (e : Env) (s : PState) : PC → Option (PState × PC)
  | .stCAS =>
      if s.isRunning then some (s, .stDone (some .alreadyRunning))
      else some ({ s with isRunning := true }, .stLock)
  | .stLock =>
      if s.mxLocked then none else some ({ s with mxLocked := true }, .stSpawn)
  | .stSpawn =>
      if e.spawnOK then some ({ s with spawned := true, goLaunched := true }, .stDone none)
      else some (s, .stSpawnFail)
  | .stSpawnFail => some ({ s with mxLocked := false }, .stDone (some .spawnFail))
  | .stDone _ => none
  | .bgAwait =>
      if s.goLaunched then
        if s.chBuf then some ({ s with chBuf := false }, .bgDiscStart)
        else if s.chClosed then some (s, .bgKillUnlock)
        else none
      else none
  | .bgKillUnlock => some ({ s with killed := true, exited := true }, .bgKillUnlock2)
  | .bgKillUnlock2 => some ({ s with mxLocked := false }, .bgDone)
  | .bgDiscStart => some ({ s with discOn := true }, .bgCmdWait)
  | .bgCmdWait =>
      if s.exited then some ({ s with waitErr := e.exitRes }, .bgCloseConn) else none
  | .bgCloseConn => some ({ s with connClosed := true }, .bgCloseCM)
  | .bgCloseCM => some ({ s with cmClosed := true }, .bgCloseLM)
  | .bgCloseLM => some ({ s with lmClosed := true }, .bgUnlock)
  | .bgUnlock => some ({ s with mxLocked := false }, .bgDiscStop)
  | .bgDiscStop => some ({ s with discStopped := true }, .bgDone)
  | .bgDone => none
  | .spCheck =>
      if s.isRunning then some (s, .spSignal) else some (s, .spDone (some .notStarted))
  | .spSignal =>
      if s.spawned then
        if e.sigOK then some ({ s with signaled := true }, .spLock)
        else some (s, .spDone (some .signalFail))
      else some (s, .spLock)
  | .spLock =>
      if s.mxLocked then none else some ({ s with mxLocked := true }, .spUnlock)
  | .spUnlock => some ({ s with mxLocked := false }, .spOnce)
  | .spOnce =>
      if s.onceDone then some (s, .spDone none)
      else some (closeCh { s with onceDone := true }, .spDone none)
  | .spDone _ => none
  | .wCheck =>
      if s.isRunning then some (s, .wLock) else some (s, .wDone (some .notStarted))
  | .wLock =>
      if s.mxLocked then none else some ({ s with mxLocked := true }, .wRet)
  | .wRet => some ({ s with mxLocked := false }, .wDone s.waitErr)
  | .wDone _ => none
  | .inj =>
      if s.onceDone then some (s, .injDone false)
      else some (closeCh (sendCh { s with onceDone := true, connSet := true, gwBuilt := true }),
                 .injDone true)
  | .injDone _ => none
  | .envExit =>
      if s.spawned then some ({ s with exited := true }, .envDone) else none
  | .envDone => none

/-- A configuration: shared state plus the program counter of each routine. -/
abbrev Cfg := PState × List PC

/-- Step the routine at index `i`; a blocked or absent routine leaves the
configuration unchanged (that scheduling choice makes no progress). -/
def stepAt (e : Env) (c : Cfg) (i : Nat) : Cfg :=
  match c.2.get? i with
  | none => c
  | some pc =>
      match stepThread e c.1 pc with
      | none => c
      | some (s', pc') => (s', c.2.set i pc')

/-- Run a schedule (list of routine indices), one atomic step per entry. -/
def run (e : Env) (c : Cfg) : List Nat → Cfg
  | [] => c
  | i :: l => run e (stepAt e c i) l

/-- Every routine of the configuration is blocked or finished. -/
def allBlocked (e : Env) (c : Cfg) : Bool :=
  c.2.all (fun pc => (stepThread e c.1 pc).isNone)

theorem stepAt_of_allBlocked {e : Env} {c : Cfg} (h : allBlocked e c = true) (i : Nat) :
    stepAt e c i = c := by
  unfold stepAt
  cases hg : c.2.get? i with
  | none => rfl
  | some pc =>
      have hmem : pc ∈ c.2 := List.get?_mem hg
      have hb := List.all_eq_true.mp h pc hmem
      cases hst : stepThread e c.1 pc with
      | none => simp [hst]
      | some v => rw [hst] at hb; simp at hb

theorem run_of_allBlocked {e : Env} {c : Cfg} (h : allBlocked e c = true) :
    ∀ l : List Nat, run e c l = c := by
  intro l
  induction l with
  | nil => rfl
  | cons i l ih => rw [run, stepAt_of_allBlocked h i]; exact ih

/-!
## C1: `Stop()` called after a successful `Start()` but before any
`InjectConn()`

In the source, `Stop()` sends the interrupt and then blocks on
`p.waitMx.Lock()` (line 199) *before* its deferred
`p.connOnce.Do(func() { close(p.connCh) })` can run; the mutex was
acquired by `Start()` (line 144) and is released only by the background
goroutine, which is itself blocked on `<-p.connCh` inside `awaitConn`.
The channel-closing step that is supposed to unblock the awaiting routine
is therefore unreachable, and `Stop()`, `Wait()` and the background
routine deadlock.
-/

def env1 : Env := { spawnOK := true, sigOK := true, exitRes := none }

/-- Shared state right after a successful `Start()` returns: `isRunning`
set by the CAS, `waitMx` held, child spawned, background goroutine
launched, no connection injected yet. -/
def postStart : PState :=
  { isRunning := true, mxLocked := true, spawned := true, goLaunched := true }

/-- `Start()` succeeded; `InjectConn` is never called; one `Stop()` call
and one `Wait()` call are made; the child process may exit. -/
def c1init : Cfg := (postStart, [.bgAwait, .spCheck, .wCheck, .envExit])

/-- Configuration reached once `Stop()` delivers the interrupt and blocks
at `p.waitMx.Lock()`, `Wait()` blocks at its `p.waitMx.Lock()`, and the
child process exits. -/
def c1stuck : Cfg := run env1 c1init [1, 1, 2, 3]

/-- C1: FALSE of the code — calling `Stop()` after a successful `Start()`
but before any `InjectConn()` does NOT close the connection-ready channel,
unblock the awaiting background routine, or let `Wait()` return.  After
`Stop()` signals the child and both `Stop()` and `Wait()` reach
`p.waitMx.Lock()`, every routine is blocked: the background goroutine
still sits at `<-p.connCh`, the channel is never closed, the `waitMx`
completion lock is never released, and under every subsequent schedule the
configuration is unchanged, so `Wait()` never returns (deadlock). -/
theorem C1_stop_before_inject_deadlocks :
    c1stuck.2 = [PC.bgAwait, PC.spLock, PC.wLock, PC.envDone] ∧
    c1stuck.1.chClosed = false ∧
    c1stuck.1.mxLocked = true ∧
    allBlocked env1 c1stuck = true ∧
    ∀ l : List Nat, run env1 c1stuck l = c1stuck := by
  refine ⟨by decide, by decide, by decide, by decide, run_of_allBlocked (by decide)⟩

/-!
## C4: `Start()` when the OS spawn fails

`Start()`'s CAS sets `isRunning` to 1 before `p.cmd.Start()` is attempted
and nothing ever resets it, so after a spawn failure `IsRunning()` still
reports `true`; `Wait()` passes its flag check, immediately acquires the
mutex (released by `Start()`'s failure path) and returns the zero-valued
`p.waitErr`, i.e. `nil`.
-/

def env4 : Env := { spawnOK := false, sigOK := true, exitRes := none }

/-- A fresh `Proc` on which one `Start()` call (whose spawn fails) and one
subsequent `Wait()` call are made, run to completion. -/
def c4run : Cfg := run env4 ({}, [.stCAS, .wCheck]) [0, 0, 0, 0, 1, 1, 1]

/-- C4: divergence of the code from the claim — when the OS spawn fails,
`Start()` does return the OS error, but `IsRunning()` returns `true`
afterwards (the CAS is never undone), and the subsequent `Wait()` returns
`nil` (the zero value of `waitErr`), which is neither `NotStarted` nor the
recorded spawn error. -/
theorem C4_spawn_failure_behaviour :
    c4run.2 = [PC.stDone (some Err.spawnFail), PC.wDone none] ∧
    IsRunning c4run.1 = true := by
  decide

/-!
## C5: `Stop()` / `Wait()` on an instance never started
-/

/-- C5: on any instance whose running flag was never set
(`isRunning = 0`), both `Stop()` and `Wait()` return `NotStarted` in one
enabled step — no blocking on the mutex, no signal, no channel close —
and leave the state exactly unchanged, in every environment. -/
theorem C5_stop_wait_not_started (e : Env) (s : PState) (h : s.isRunning = false) :
    stepThread e s .spCheck = some (s, .spDone (some .notStarted)) ∧
    stepThread e s .wCheck = some (s, .wDone (some .notStarted)) := by
  simp [stepThread, h]

theorem C5_witness :
    ({} : PState).isRunning = false ∧
    stepThread ⟨true, true, none⟩ {} .spCheck = some ({}, .spDone (some .notStarted)) ∧
    stepThread ⟨true, true, none⟩ {} .wCheck = some ({}, .wDone (some .notStarted)) :=
  ⟨rfl, C5_stop_wait_not_started ⟨true, true, none⟩ {} rfl⟩

/-!
## C8: `Stop()` when signalling the child fails
-/

/-- C8: when a process handle exists (`p.cmd.Process != nil`, i.e. the
spawn succeeded) and delivering `os.Interrupt` fails, `Stop()` returns the
signal error from that very step: the state is returned unchanged (so the
completion lock is not acquired or waited on and the connection-ready
channel is not closed), and the call is finished (`spDone`), not
blocked. -/
theorem C8_signal_failure_returns_immediately (e : Env) (s : PState)
    (hspawn : s.spawned = true) (hsig : e.sigOK = false) :
    stepThread e s .spSignal = some (s, .spDone (some .signalFail)) := by
  simp [stepThread, hspawn, hsig]

theorem C8_witness :
    ({ spawned := true } : PState).spawned = true ∧
    (⟨true, false, none⟩ : Env).sigOK = false ∧
    stepThread ⟨true, false, none⟩ { spawned := true } .spSignal =
      some ({ spawned := true }, .spDone (some .signalFail)) :=
  ⟨rfl, rfl, C8_signal_failure_returns_immediately ⟨true, false, none⟩ { spawned := true } rfl rfl⟩

/-!
## C10: the running flag is written only by `Start()`'s CAS and is never
reset
-/

theorem closeCh_isRunning (s : PState) : (closeCh s).isRunning = s.isRunning := by
  unfold closeCh; split <;> rfl

theorem sendCh_isRunning (s : PState) : (sendCh s).isRunning = s.isRunning := by
  unfold sendCh; split <;> rfl

/-- Any single step either leaves `isRunning` unchanged, or is the
`stCAS` step flipping it from `0` to `1`. -/
theorem stepThread_isRunning_writer (e : Env) (s : PState) (pc : PC)
    (s' : PState) (pc' : PC) (h : stepThread e s pc = some (s', pc')) :
    s'.isRunning = s.isRunning ∨
      (pc = PC.stCAS ∧ s.isRunning = false ∧ s'.isRunning = true) := by
  cases pc <;>
    simp only [stepThread] at h <;>
    (try split at h) <;>
    (try split at h) <;>
    (try cases h) <;>
    simp_all [closeCh_isRunning, sendCh_isRunning]

theorem stepAt_isRunning_mono (e : Env) (c : Cfg) (i : Nat)
    (h : c.1.isRunning = true) : (stepAt e c i).1.isRunning = true := by
  unfold stepAt
  cases hg : c.2.get? i with
  | none => exact h
  | some pc =>
      cases hst : stepThread e c.1 pc with
      | none => simp [hst, h]
      | some v =>
          rcases v with ⟨s', pc'⟩
          rcases stepThread_isRunning_writer e c.1 pc s' pc' hst with heq | ⟨_, hfalse, _⟩
          · simpa [hst, heq] using h
          · rw [h] at hfalse; cases hfalse

theorem run_isRunning_mono (e : Env) :
    ∀ (l : List Nat) (c : Cfg), c.1.isRunning = true → (run e c l).1.isRunning = true := by
  intro l
  induction l with
  | nil => intro c h; exact h
  | cons i l ih => intro c h; exact ih (stepAt e c i) (stepAt_isRunning_mono e c i h)

/-- C10: the running flag is written only by `Start()`'s compare-and-swap
from not-started to running and nothing ever resets it; consequently once
the CAS has succeeded (`isRunning = 1`), `IsRunning()` — a plain load of
that flag — returns `true` after every further schedule of every routine,
in every environment: the child exiting, the teardown finishing, or the
spawn having failed never make `IsRunning()` report `false` again. -/
theorem C10_isRunning_set_forever :
    (∀ (e : Env) (s : PState) (pc : PC) (s' : PState) (pc' : PC),
        stepThread e s pc = some (s', pc') →
        s'.isRunning = s.isRunning ∨
          (pc = PC.stCAS ∧ s.isRunning = false ∧ s'.isRunning = true)) ∧
    (∀ (e : Env) (c : Cfg) (l : List Nat),
        IsRunning c.1 = true → IsRunning (run e c l).1 = true) ∧
    (∀ s : PState, IsRunning s = s.isRunning) :=
  ⟨stepThread_isRunning_writer,
   fun e c l h => run_isRunning_mono e l c h,
   fun _ => rfl⟩

theorem C10_witness :
    IsRunning (({ isRunning := true } : PState), ([] : List PC)).1 = true ∧
    IsRunning (run ⟨true, true, none⟩ ({ isRunning := true }, []) [0, 1, 2]).1 = true :=
  ⟨rfl, C10_isRunning_set_forever.2.1 ⟨true, true, none⟩ ({ isRunning := true }, []) [0, 1, 2] rfl⟩

/-!
## C7: order of the Serving→Exited teardown

In `Start()`'s background goroutine the `p.disc.Stop()` call is
*deferred* (line 164) while the `p.waitMx.Unlock()` (line 179) is the last
explicit statement of the goroutine body, so the completion lock is
released *before* the discovery publisher is stopped — the opposite of the
claimed order of those two steps.
-/

def env7 : Env := { spawnOK := true, sigOK := true, exitRes := some .exitFail }

/-- Shared state while Serving: connection injected and consumed by
`awaitConn`, gateway built, discovery started, child already exited. -/
def servingExited : PState :=
  { isRunning := true, mxLocked := true, spawned := true, goLaunched := true,
    onceDone := true, connSet := true, gwBuilt := true, chClosed := true,
    discOn := true, exited := true }

/-- The background goroutine alone, about to return from `cmd.Wait()`. -/
def c7init : Cfg := (servingExited, [.bgCmdWait])

/-- C7 counterexample: after the fifth teardown step of the background
routine (`p.waitMx.Unlock()`), the completion lock is already released
while the discovery publisher has NOT yet been stopped — so the teardown
does not stop the publisher before releasing the lock as claimed. -/
theorem C7_counterexample_unlock_before_disc_stop :
    (run env7 c7init [0, 0, 0, 0, 0]).1.mxLocked = false ∧
    (run env7 c7init [0, 0, 0, 0, 0]).1.discStopped = false ∧
    (run env7 c7init [0, 0, 0, 0, 0]).2 = [PC.bgDiscStop] := by
  decide

/-- C7 (amended): on the Serving→Exited transition the background routine
performs, in this order: record the exit error; close the IPC connection
(an already-closed-connection error being tolerated as non-fatal); close
all resources of the gateway's connection manager and then of its
listener manager; release the completion lock; and finally stop the
discovery publisher (which is deferred, hence runs after the unlock). -/
theorem C7_teardown_order :
    (let c := run env7 c7init [0];
      c.1.waitErr = some Err.exitFail ∧ c.1.connClosed = false) ∧
    (let c := run env7 c7init [0, 0];
      c.1.connClosed = true ∧ c.1.cmClosed = false) ∧
    (let c := run env7 c7init [0, 0, 0];
      c.1.cmClosed = true ∧ c.1.lmClosed = false) ∧
    (let c := run env7 c7init [0, 0, 0, 0];
      c.1.lmClosed = true ∧ c.1.mxLocked = true ∧ c.1.discStopped = false) ∧
    (let c := run env7 c7init [0, 0, 0, 0, 0];
      c.1.mxLocked = false ∧ c.1.discStopped = false) ∧
    (let c := run env7 c7init [0, 0, 0, 0, 0, 0];
      c.1.discStopped = true ∧ c.2 = [PC.bgDone]) := by
  decide

/-!
## C9: the connection-ready channel is closed at most once and never sent
to after close

Both sites that touch `p.connCh` — the send+close inside
`InjectConn`'s `p.connOnce.Do` body and the close inside `Stop()`'s
deferred `p.connOnce.Do` — are guarded by the same `sync.Once`, so at most
one of them ever runs, exactly once.  The invariant below (`connCh` can
only be closed once the `connOnce` guard has fired, and no fault has
occurred) is preserved by every step of every routine, hence no
interleaving reaches a double-close or a send-on-closed-channel fault.
-/

/-- Invariant tying `connCh` to its `connOnce` guard: no channel fault has
occurred, and the channel can only be closed if the once-guard already
fired. -/
def ChanInv (s : PState) : Prop :=
  s.doubleCloseFault = false ∧ s.sendOnClosedFault = false ∧
    (s.chClosed = true → s.onceDone = true)

theorem stepThread_chanInv (e : Env) (s : PState) (pc : PC) (s' : PState) (pc' : PC)
    (h : stepThread e s pc = some (s', pc')) (hinv : ChanInv s) : ChanInv s' := by
  obtain ⟨h1, h2, h3⟩ := hinv
  cases pc <;>
    simp only [stepThread] at h <;>
    (try split at h) <;>
    (try split at h) <;>
    (try cases h) <;>
    simp_all [ChanInv, closeCh, sendCh]

theorem stepAt_chanInv (e : Env) (c : Cfg) (i : Nat) (hinv : ChanInv c.1) :
    ChanInv (stepAt e c i).1 := by
  unfold stepAt
  cases hg : c.2.get? i with
  | none => exact hinv
  | some pc =>
      cases hst : stepThread e c.1 pc with
      | none => simpa [hst] using hinv
      | some v =>
          rcases v with ⟨s', pc'⟩
          simpa [hst] using stepThread_chanInv e c.1 pc s' pc' hst hinv

theorem run_chanInv (e : Env) :
    ∀ (l : List Nat) (c : Cfg), ChanInv c.1 → ChanInv (run e c l).1 := by
  intro l
  induction l with
  | nil => intro c h; exact h
  | cons i l ih => intro c h; exact ih (stepAt e c i) (stepAt_chanInv e c i h)

/-- C9: for every set of routines (any mix of `InjectConn`, `Stop()`,
`Wait()`, the background routine, environment exits, further `Start()`
calls) and every schedule starting from the post-`Start()` state, the
connection-ready channel is never closed twice and never sent to after it
was closed: no double-close or send-on-closed-channel fault is
reachable. -/
theorem C9_connCh_no_double_close_no_send_after_close
    (e : Env) (ts : List PC) (l : List Nat) :
    (run e (postStart, ts) l).1.doubleCloseFault = false ∧
    (run e (postStart, ts) l).1.sendOnClosedFault = false := by
  have h := run_chanInv e l (postStart, ts) ⟨rfl, rfl, by intro h; cases h⟩
  exact ⟨h.1, h.2.1⟩

theorem C9_witness :
    (run ⟨true, true, none⟩ (postStart, [.bgAwait, .inj, .spCheck, .envExit])
        [1, 0, 2, 2, 3, 0, 0, 0, 0, 0, 0, 2, 2, 2]).1.doubleCloseFault = false ∧
    (run ⟨true, true, none⟩ (postStart, [.bgAwait, .inj, .spCheck, .envExit])
        [1, 0, 2, 2, 3, 0, 0, 0, 0, 0, 0, 2, 2, 2]).1.sendOnClosedFault = false :=
  C9_connCh_no_double_close_no_send_after_close ⟨true, true, none⟩
    [.bgAwait, .inj, .spCheck, .envExit] [1, 0, 2, 2, 3, 0, 0, 0, 0, 0, 0, 2, 2, 2]

/-!
## C2: exactly one `Start()` call succeeds

`Start()` begins with `atomic.CompareAndSwapInt32(&p.isRunning, 0, 1)`;
only the call winning the CAS proceeds, every other call returns
`errProcAlreadyRunning` without touching any state.
-/

def eS : Env := { spawnOK := true, sigOK := true, exitRes := none }

/-- Program points belonging to a `Start()` call in an execution where the
spawn succeeds. -/
def startPC : PC → Bool
  | .stCAS => true
  | .stLock => true
  | .stSpawn => true
  | .stDone none => true
  | .stDone (some .alreadyRunning) => true
  | _ => false

/-- A `Start()` call that has won the CAS (in flight past it, or returned
success). -/
def startWon : PC → Bool
  | .stLock => true
  | .stSpawn => true
  | .stDone none => true
  | _ => false

/-- Invariant of a configuration whose routines are all `Start()` calls:
the number of calls past the CAS equals the flag, and while the flag is
still `0` no call has moved at all. -/
def Inv2 (c : Cfg) : Prop :=
  (∀ pc ∈ c.2, startPC pc = true) ∧
  c.2.countP startWon = (if c.1.isRunning then 1 else 0) ∧
  (c.1.isRunning = false → ∀ pc ∈ c.2, pc = PC.stCAS)

theorem stepAt_length (e : Env) (c : Cfg) (i : Nat) :
    (stepAt e c i).2.length = c.2.length := by
  unfold stepAt
  cases hg : c.2.get? i with
  | none => rfl
  | some pc =>
      cases hst : stepThread e c.1 pc with
      | none => simp [hst]
      | some v => rcases v with ⟨s', pc'⟩; simp [hst, List.length_set]

theorem run_length (e : Env) :
    ∀ (l : List Nat) (c : Cfg), (run e c l).2.length = c.2.length := by
  intro l
  induction l with
  | nil => intro c; rfl
  | cons i l ih => intro c; rw [run, ih (stepAt e c i), stepAt_length]

theorem stepAt_eq_none (e : Env) (c : Cfg) (i : Nat) (hg : c.2.get? i = none) :
    stepAt e c i = c := by
  unfold stepAt; rw [hg]

theorem stepAt_eq_blocked (e : Env) (c : Cfg) (i : Nat) (pc : PC)
    (hg : c.2.get? i = some pc) (hst : stepThread e c.1 pc = none) :
    stepAt e c i = c := by
  unfold stepAt
  rw [hg]
  show (match stepThread e c.1 pc with
        | none => c
        | some (s', pc') => (s', c.2.set i pc')) = c
  rw [hst]

theorem stepAt_eq_some (e : Env) (c : Cfg) (i : Nat) (pc : PC) (s' : PState) (pc' : PC)
    (hg : c.2.get? i = some pc) (hst : stepThread e c.1 pc = some (s', pc')) :
    stepAt e c i = (s', c.2.set i pc') := by
  unfold stepAt
  rw [hg]
  show (match stepThread e c.1 pc with
        | none => c
        | some (s', pc') => (s', c.2.set i pc')) = (s', c.2.set i pc')
  rw [hst]

theorem stepAt_inv2 (c : Cfg) (i : Nat) (h : Inv2 c) : Inv2 (stepAt eS c i) := by
  obtain ⟨hmem, hcount, hall⟩ := h
  cases hg : c.2.get? i with
  | none => rw [stepAt_eq_none eS c i hg]; exact ⟨hmem, hcount, hall⟩
  | some pc =>
      have hex : ∃ hlt : i < c.2.length, c.2[i] = pc := by
        rw [List.get?_eq_getElem?] at hg
        exact List.getElem?_eq_some.mp hg
      obtain ⟨hlt, hgetel⟩ := hex
      have hpcmem : pc ∈ c.2 := List.get?_mem hg
      have hpc := hmem pc hpcmem
      cases pc with
      | stCAS =>
          by_cases hr : c.1.isRunning = true
          · rw [stepAt_eq_some eS c i PC.stCAS c.1 (PC.stDone (some .alreadyRunning)) hg
              (by simp [stepThread, hr])]
            refine ⟨?_, ?_, ?_⟩
            · intro q hq
              rcases List.mem_or_eq_of_mem_set hq with hin | hEq
              · exact hmem q hin
              · subst hEq; rfl
            · show List.countP startWon (c.2.set i _) = _
              have hc1 : List.countP startWon c.2 = 1 := by rw [hcount, hr]; norm_num
              rw [List.countP_set startWon c.2 i _ hlt, hgetel, hc1]
              norm_num [startWon, hr]
            · intro hfalse; rw [hr] at hfalse; cases hfalse
          · rw [Bool.not_eq_true] at hr
            rw [stepAt_eq_some eS c i PC.stCAS { c.1 with isRunning := true } PC.stLock hg
              (by simp [stepThread, hr])]
            refine ⟨?_, ?_, ?_⟩
            · intro q hq
              rcases List.mem_or_eq_of_mem_set hq with hin | hEq
              · exact hmem q hin
              · subst hEq; rfl
            · show List.countP startWon (c.2.set i _) = _
              have hc0 : List.countP startWon c.2 = 0 := by rw [hcount, hr]; norm_num
              rw [List.countP_set startWon c.2 i _ hlt, hgetel, hc0]
              norm_num [startWon]
            · intro hfalse; cases hfalse
      | stLock =>
          have hr : c.1.isRunning = true := by
            by_contra hr
            rw [Bool.not_eq_true] at hr
            have := hall hr PC.stLock hpcmem
            cases this
          by_cases hml : c.1.mxLocked = true
          · rw [stepAt_eq_blocked eS c i PC.stLock hg (by simp [stepThread, hml])]
            exact ⟨hmem, hcount, hall⟩
          · rw [Bool.not_eq_true] at hml
            rw [stepAt_eq_some eS c i PC.stLock { c.1 with mxLocked := true } PC.stSpawn hg
              (by simp [stepThread, hml])]
            refine ⟨?_, ?_, ?_⟩
            · intro q hq
              rcases List.mem_or_eq_of_mem_set hq with hin | hEq
              · exact hmem q hin
              · subst hEq; rfl
            · show List.countP startWon (c.2.set i _) = _
              have hc1 : List.countP startWon c.2 = 1 := by rw [hcount, hr]; norm_num
              rw [List.countP_set startWon c.2 i _ hlt, hgetel, hc1]
              norm_num [startWon, hr]
            · intro hfalse; rw [hr] at hfalse; cases hfalse
      | stSpawn =>
          have hr : c.1.isRunning = true := by
            by_contra hr
            rw [Bool.not_eq_true] at hr
            have := hall hr PC.stSpawn hpcmem
            cases this
          rw [stepAt_eq_some eS c i PC.stSpawn
            { c.1 with spawned := true, goLaunched := true } (PC.stDone none) hg
            (by simp [stepThread, eS])]
          refine ⟨?_, ?_, ?_⟩
          · intro q hq
            rcases List.mem_or_eq_of_mem_set hq with hin | hEq
            · exact hmem q hin
            · subst hEq; rfl
          · show List.countP startWon (c.2.set i _) = _
            have hc1 : List.countP startWon c.2 = 1 := by rw [hcount, hr]; norm_num
            rw [List.countP_set startWon c.2 i _ hlt, hgetel, hc1]
            norm_num [startWon, hr]
          · intro hfalse; rw [hr] at hfalse; cases hfalse
      | stDone r =>
          rw [stepAt_eq_blocked eS c i (PC.stDone r) hg (by simp [stepThread])]
          exact ⟨hmem, hcount, hall⟩
      | stSpawnFail => exact Bool.noConfusion hpc
      | bgAwait => exact Bool.noConfusion hpc
      | bgKillUnlock => exact Bool.noConfusion hpc
      | bgKillUnlock2 => exact Bool.noConfusion hpc
      | bgDiscStart => exact Bool.noConfusion hpc
      | bgCmdWait => exact Bool.noConfusion hpc
      | bgCloseConn => exact Bool.noConfusion hpc
      | bgCloseCM => exact Bool.noConfusion hpc
      | bgCloseLM => exact Bool.noConfusion hpc
      | bgUnlock => exact Bool.noConfusion hpc
      | bgDiscStop => exact Bool.noConfusion hpc
      | bgDone => exact Bool.noConfusion hpc
      | spCheck => exact Bool.noConfusion hpc
      | spSignal => exact Bool.noConfusion hpc
      | spLock => exact Bool.noConfusion hpc
      | spUnlock => exact Bool.noConfusion hpc
      | spOnce => exact Bool.noConfusion hpc
      | spDone r => exact Bool.noConfusion hpc
      | wCheck => exact Bool.noConfusion hpc
      | wLock => exact Bool.noConfusion hpc
      | wRet => exact Bool.noConfusion hpc
      | wDone r => exact Bool.noConfusion hpc
      | inj => exact Bool.noConfusion hpc
      | injDone ok => exact Bool.noConfusion hpc
      | envExit => exact Bool.noConfusion hpc
      | envDone => exact Bool.noConfusion hpc

theorem run_inv2 : ∀ (l : List Nat) (c : Cfg), Inv2 c → Inv2 (run eS c l) := by
  intro l
  induction l with
  | nil => intro c h; exact h
  | cons i l ih => intro c h; exact ih (stepAt eS c i) (stepAt_inv2 c i h)

/-- C2: for every number `n` of `Start()` calls on one instance and every
interleaving of their steps, at most one call gets past the
compare-and-swap; while the flag is unset no call has moved; when all
calls have returned (and there is at least one), exactly one returned
success and the other `n - 1` returned `errProcAlreadyRunning`; and a
`Start()` call that loses the CAS returns `errProcAlreadyRunning` leaving
the shared state exactly unchanged. -/
theorem C2_start_exactly_one_succeeds (n : Nat) (l : List Nat) :
    (run eS ({}, List.replicate n PC.stCAS) l).2.countP startWon ≤ 1 ∧
    ((run eS ({}, List.replicate n PC.stCAS) l).1.isRunning = false →
      (run eS ({}, List.replicate n PC.stCAS) l).2.countP startWon = 0) ∧
    ((∀ pc ∈ (run eS ({}, List.replicate n PC.stCAS) l).2, ∃ r, pc = PC.stDone r) →
      1 ≤ n →
      (run eS ({}, List.replicate n PC.stCAS) l).2.countP
          (fun pc => pc == PC.stDone none) = 1 ∧
      (run eS ({}, List.replicate n PC.stCAS) l).2.countP
          (fun pc => pc == PC.stDone (some Err.alreadyRunning)) = n - 1) ∧
    (∀ (e : Env) (s : PState), s.isRunning = true →
      stepThread e s PC.stCAS = some (s, PC.stDone (some Err.alreadyRunning))) := by
  have hinit : Inv2 ({}, List.replicate n PC.stCAS) := by
    refine ⟨?_, ?_, ?_⟩
    · intro pc hpc
      rw [List.eq_of_mem_replicate hpc]
      rfl
    · rw [List.countP_replicate]
      rfl
    · intro _ pc hpc
      exact List.eq_of_mem_replicate hpc
  obtain ⟨hmem, hcount, hall⟩ := run_inv2 l ({}, List.replicate n PC.stCAS) hinit
  have hlen : (run eS ({}, List.replicate n PC.stCAS) l).2.length = n := by
    rw [run_length, List.length_replicate]
  refine ⟨?_, ?_, ?_, ?_⟩
  · rw [hcount]; split <;> omega
  · intro hf; rw [hcount, hf]; norm_num
  · intro hdone hn
    have hflag : (run eS ({}, List.replicate n PC.stCAS) l).1.isRunning = true := by
      by_contra hflag
      rw [Bool.not_eq_true] at hflag
      have hne : (run eS ({}, List.replicate n PC.stCAS) l).2 ≠ [] := by
        intro hnil
        rw [hnil] at hlen
        simp at hlen
        omega
      obtain ⟨pc, hpcmem⟩ := List.exists_mem_of_length_pos (List.length_pos.mpr hne)
      obtain ⟨r, hr⟩ := hdone pc hpcmem
      have := hall hflag pc hpcmem
      rw [this] at hr
      cases hr
    have hwon1 : (run eS ({}, List.replicate n PC.stCAS) l).2.countP startWon = 1 := by
      rw [hcount, hflag]; rfl
    have hcongr1 : (run eS ({}, List.replicate n PC.stCAS) l).2.countP
        (fun pc => pc == PC.stDone none) =
        (run eS ({}, List.replicate n PC.stCAS) l).2.countP startWon := by
      apply List.countP_congr
      intro pc hpcmem
      obtain ⟨r, hr⟩ := hdone pc hpcmem
      have hst := hmem pc hpcmem
      subst hr
      cases r with
      | none => simp [startWon]
      | some err =>
          cases err <;> simp [startWon]
    have h1 : (run eS ({}, List.replicate n PC.stCAS) l).2.countP
        (fun pc => pc == PC.stDone none) = 1 := by rw [hcongr1, hwon1]
    refine ⟨h1, ?_⟩
    have hsplit := List.length_eq_countP_add_countP
      (fun pc => pc == PC.stDone none) (l := (run eS ({}, List.replicate n PC.stCAS) l).2)
    have hcongr2 : (run eS ({}, List.replicate n PC.stCAS) l).2.countP
        (fun pc => decide ¬(pc == PC.stDone none) = true) =
        (run eS ({}, List.replicate n PC.stCAS) l).2.countP
        (fun pc => pc == PC.stDone (some Err.alreadyRunning)) := by
      apply List.countP_congr
      intro pc hpcmem
      obtain ⟨r, hr⟩ := hdone pc hpcmem
      have hst := hmem pc hpcmem
      subst hr
      cases r with
      | none => simp
      | some err =>
          cases err <;> simp <;> simp [startPC] at hst
    rw [hlen, h1, hcongr2] at hsplit
    omega
  · intro e s hs
    simp [stepThread, hs]

theorem C2_witness :
    (run eS ({}, List.replicate 3 PC.stCAS) [0, 0, 0, 1, 2]).2.countP startWon ≤ 1 ∧
    (run eS ({}, List.replicate 3 PC.stCAS) [0, 0, 0, 1, 2]).2.countP
        (fun pc => pc == PC.stDone none) = 1 ∧
    (run eS ({}, List.replicate 3 PC.stCAS) [0, 0, 0, 1, 2]).2.countP
        (fun pc => pc == PC.stDone (some Err.alreadyRunning)) = 2 := by
  have hdone : ∀ pc ∈ (run eS ({}, List.replicate 3 PC.stCAS) [0, 0, 0, 1, 2]).2,
      ∃ r, pc = PC.stDone r := by
    intro pc hpc
    have hfin : (run eS ({}, List.replicate 3 PC.stCAS) [0, 0, 0, 1, 2]).2 =
        [PC.stDone none, PC.stDone (some .alreadyRunning),
         PC.stDone (some .alreadyRunning)] := by decide
    rw [hfin] at hpc
    simp only [List.mem_cons, List.not_mem_nil, or_false] at hpc
    rcases hpc with h | h | h
    · exact ⟨none, h⟩
    · exact ⟨some .alreadyRunning, h⟩
    · exact ⟨some .alreadyRunning, h⟩
  exact ⟨(C2_start_exactly_one_succeeds 3 [0, 0, 0, 1, 2]).1,
    ((C2_start_exactly_one_succeeds 3 [0, 0, 0, 1, 2]).2.2.1 hdone (by omega)).1,
    ((C2_start_exactly_one_succeeds 3 [0, 0, 0, 1, 2]).2.2.1 hdone (by omega)).2⟩

/-!
## C3: `InjectConn` returns `true` exactly once

`InjectConn` does all its work inside `p.connOnce.Do`: only the first
caller to enter the `sync.Once` body sets `ok = true`, stores the
connection, builds the RPC gateway and signals the one-shot channel;
every later call leaves `ok == false` and performs no work at all.
-/

def injPC : PC → Bool
  | .inj => true
  | .injDone _ => true
  | _ => false

theorem closeCh_onceDone (s : PState) : (closeCh s).onceDone = s.onceDone := by
  unfold closeCh; split <;> rfl

theorem sendCh_onceDone (s : PState) : (sendCh s).onceDone = s.onceDone := by
  unfold sendCh; split <;> rfl

/-- Invariant of a configuration whose routines are all `InjectConn`
calls: the number of calls that returned `true` equals the `connOnce`
guard, and while the guard is unset no call has moved. -/
def Inv3 (c : Cfg) : Prop :=
  (∀ pc ∈ c.2, injPC pc = true) ∧
  c.2.countP (fun pc => pc == PC.injDone true) = (if c.1.onceDone then 1 else 0) ∧
  (c.1.onceDone = false → ∀ pc ∈ c.2, pc = PC.inj)

theorem stepAt_inv3 (e : Env) (c : Cfg) (i : Nat) (h : Inv3 c) : Inv3 (stepAt e c i) := by
  obtain ⟨hmem, hcount, hall⟩ := h
  cases hg : c.2.get? i with
  | none => rw [stepAt_eq_none e c i hg]; exact ⟨hmem, hcount, hall⟩
  | some pc =>
      have hex : ∃ hlt : i < c.2.length, c.2[i] = pc := by
        rw [List.get?_eq_getElem?] at hg
        exact List.getElem?_eq_some.mp hg
      obtain ⟨hlt, hgetel⟩ := hex
      have hpcmem : pc ∈ c.2 := List.get?_mem hg
      have hpc := hmem pc hpcmem
      cases pc with
      | inj =>
          by_cases ho : c.1.onceDone = true
          · rw [stepAt_eq_some e c i PC.inj c.1 (PC.injDone false) hg
              (by simp [stepThread, ho])]
            refine ⟨?_, ?_, ?_⟩
            · intro q hq
              rcases List.mem_or_eq_of_mem_set hq with hin | hEq
              · exact hmem q hin
              · subst hEq; rfl
            · show List.countP _ (c.2.set i _) = _
              have hc1 : List.countP (fun pc => pc == PC.injDone true) c.2 = 1 := by
                rw [hcount, ho]; rfl
              rw [List.countP_set _ c.2 i _ hlt, hgetel, hc1]
              simp [ho]
            · intro hfalse; rw [ho] at hfalse; cases hfalse
          · rw [Bool.not_eq_true] at ho
            rw [stepAt_eq_some e c i PC.inj
              (closeCh (sendCh { c.1 with onceDone := true, connSet := true, gwBuilt := true }))
              (PC.injDone true) hg (by simp [stepThread, ho])]
            refine ⟨?_, ?_, ?_⟩
            · intro q hq
              rcases List.mem_or_eq_of_mem_set hq with hin | hEq
              · exact hmem q hin
              · subst hEq; rfl
            · show List.countP _ (c.2.set i _) = _
              have hc0 : List.countP (fun pc => pc == PC.injDone true) c.2 = 0 := by
                rw [hcount, ho]; rfl
              rw [List.countP_set _ c.2 i _ hlt, hgetel, hc0]
              rw [closeCh_onceDone, sendCh_onceDone]
              simp
            · intro hfalse
              rw [closeCh_onceDone, sendCh_onceDone] at hfalse
              cases hfalse
      | injDone ok =>
          rw [stepAt_eq_blocked e c i (PC.injDone ok) hg (by simp [stepThread])]
          exact ⟨hmem, hcount, hall⟩
      | stCAS => exact Bool.noConfusion hpc
      | stLock => exact Bool.noConfusion hpc
      | stSpawn => exact Bool.noConfusion hpc
      | stSpawnFail => exact Bool.noConfusion hpc
      | stDone r => exact Bool.noConfusion hpc
      | bgAwait => exact Bool.noConfusion hpc
      | bgKillUnlock => exact Bool.noConfusion hpc
      | bgKillUnlock2 => exact Bool.noConfusion hpc
      | bgDiscStart => exact Bool.noConfusion hpc
      | bgCmdWait => exact Bool.noConfusion hpc
      | bgCloseConn => exact Bool.noConfusion hpc
      | bgCloseCM => exact Bool.noConfusion hpc
      | bgCloseLM => exact Bool.noConfusion hpc
      | bgUnlock => exact Bool.noConfusion hpc
      | bgDiscStop => exact Bool.noConfusion hpc
      | bgDone => exact Bool.noConfusion hpc
      | spCheck => exact Bool.noConfusion hpc
      | spSignal => exact Bool.noConfusion hpc
      | spLock => exact Bool.noConfusion hpc
      | spUnlock => exact Bool.noConfusion hpc
      | spOnce => exact Bool.noConfusion hpc
      | spDone r => exact Bool.noConfusion hpc
      | wCheck => exact Bool.noConfusion hpc
      | wLock => exact Bool.noConfusion hpc
      | wRet => exact Bool.noConfusion hpc
      | wDone r => exact Bool.noConfusion hpc
      | envExit => exact Bool.noConfusion hpc
      | envDone => exact Bool.noConfusion hpc

theorem run_inv3 (e : Env) : ∀ (l : List Nat) (c : Cfg), Inv3 c → Inv3 (run e c l) := by
  intro l
  induction l with
  | nil => intro c h; exact h
  | cons i l ih => intro c h; exact ih (stepAt e c i) (stepAt_inv3 e c i h)

/-- C3: for every `n > 1` (indeed every `n ≥ 1`) `InjectConn` calls on one
started instance and every interleaving, at most one call returns `true`;
when all calls have returned, exactly one returned `true` and the other
`n - 1` returned `false`; whichever call enters the `connOnce` body first
(fresh guard, channel not yet closed) returns `true` with exactly the
documented side effects — store the connection, build the RPC gateway,
signal and close the one-shot channel — and every call finding the guard
already fired returns `false` with no side effect at all. -/
theorem C3_inject_conn_true_exactly_once (e : Env) (n : Nat) (l : List Nat) :
    (run e (postStart, List.replicate n PC.inj) l).2.countP
        (fun pc => pc == PC.injDone true) ≤ 1 ∧
    ((∀ pc ∈ (run e (postStart, List.replicate n PC.inj) l).2, pc ≠ PC.inj) → 1 ≤ n →
      (run e (postStart, List.replicate n PC.inj) l).2.countP
          (fun pc => pc == PC.injDone true) = 1 ∧
      (run e (postStart, List.replicate n PC.inj) l).2.countP
          (fun pc => pc == PC.injDone false) = n - 1) ∧
    (∀ s : PState, s.onceDone = false → s.chClosed = false →
      stepThread e s PC.inj =
        some
          ({ s with
              onceDone := true
              connSet := true
              gwBuilt := true
              chBuf := true
              chClosed := true },
           PC.injDone true)) ∧
    (∀ s : PState, s.onceDone = true →
      stepThread e s PC.inj = some (s, PC.injDone false)) := by
  have hinit : Inv3 (postStart, List.replicate n PC.inj) := by
    refine ⟨?_, ?_, ?_⟩
    · intro pc hpc
      rw [List.eq_of_mem_replicate hpc]
      rfl
    · rw [List.countP_replicate]
      rfl
    · intro _ pc hpc
      exact List.eq_of_mem_replicate hpc
  obtain ⟨hmem, hcount, hall⟩ := run_inv3 e l (postStart, List.replicate n PC.inj) hinit
  have hlen : (run e (postStart, List.replicate n PC.inj) l).2.length = n := by
    rw [run_length, List.length_replicate]
  refine ⟨?_, ?_, ?_, ?_⟩
  · rw [hcount]; split <;> omega
  · intro hdone hn
    have hflag : (run e (postStart, List.replicate n PC.inj) l).1.onceDone = true := by
      by_contra hflag
      rw [Bool.not_eq_true] at hflag
      have hne : (run e (postStart, List.replicate n PC.inj) l).2 ≠ [] := by
        intro hnil
        rw [hnil] at hlen
        simp at hlen
        omega
      obtain ⟨pc, hpcmem⟩ := List.exists_mem_of_length_pos (List.length_pos.mpr hne)
      exact hdone pc hpcmem (hall hflag pc hpcmem)
    have h1 : (run e (postStart, List.replicate n PC.inj) l).2.countP
        (fun pc => pc == PC.injDone true) = 1 := by
      rw [hcount, hflag]; rfl
    refine ⟨h1, ?_⟩
    have hsplit := List.length_eq_countP_add_countP
      (fun pc => pc == PC.injDone true)
      (l := (run e (postStart, List.replicate n PC.inj) l).2)
    have hcongr2 : (run e (postStart, List.replicate n PC.inj) l).2.countP
        (fun pc => decide ¬(pc == PC.injDone true) = true) =
        (run e (postStart, List.replicate n PC.inj) l).2.countP
        (fun pc => pc == PC.injDone false) := by
      apply List.countP_congr
      intro pc hpcmem
      have hst := hmem pc hpcmem
      cases pc with
      | inj => exact absurd rfl (hdone PC.inj hpcmem)
      | injDone ok => cases ok <;> simp
      | stCAS => exact Bool.noConfusion hst
      | stLock => exact Bool.noConfusion hst
      | stSpawn => exact Bool.noConfusion hst
      | stSpawnFail => exact Bool.noConfusion hst
      | stDone r => exact Bool.noConfusion hst
      | bgAwait => exact Bool.noConfusion hst
      | bgKillUnlock => exact Bool.noConfusion hst
      | bgKillUnlock2 => exact Bool.noConfusion hst
      | bgDiscStart => exact Bool.noConfusion hst
      | bgCmdWait => exact Bool.noConfusion hst
      | bgCloseConn => exact Bool.noConfusion hst
      | bgCloseCM => exact Bool.noConfusion hst
      | bgCloseLM => exact Bool.noConfusion hst
      | bgUnlock => exact Bool.noConfusion hst
      | bgDiscStop => exact Bool.noConfusion hst
      | bgDone => exact Bool.noConfusion hst
      | spCheck => exact Bool.noConfusion hst
      | spSignal => exact Bool.noConfusion hst
      | spLock => exact Bool.noConfusion hst
      | spUnlock => exact Bool.noConfusion hst
      | spOnce => exact Bool.noConfusion hst
      | spDone r => exact Bool.noConfusion hst
      | wCheck => exact Bool.noConfusion hst
      | wLock => exact Bool.noConfusion hst
      | wRet => exact Bool.noConfusion hst
      | wDone r => exact Bool.noConfusion hst
      | envExit => exact Bool.noConfusion hst
      | envDone => exact Bool.noConfusion hst
    rw [hlen, h1, hcongr2] at hsplit
    omega
  · intro s ho hcl
    simp [stepThread, ho, closeCh, sendCh, hcl]
  · intro s ho
    simp [stepThread, ho]

theorem C3_witness :
    (run ⟨true, true, none⟩ (postStart, List.replicate 3 PC.inj) [1, 0, 2]).2.countP
        (fun pc => pc == PC.injDone true) = 1 ∧
    (run ⟨true, true, none⟩ (postStart, List.replicate 3 PC.inj) [1, 0, 2]).2.countP
        (fun pc => pc == PC.injDone false) = 2 := by
  have hdone : ∀ pc ∈ (run ⟨true, true, none⟩ (postStart, List.replicate 3 PC.inj)
      [1, 0, 2]).2, pc ≠ PC.inj := by
    intro pc hpc
    have hfin : (run ⟨true, true, none⟩ (postStart, List.replicate 3 PC.inj) [1, 0, 2]).2 =
        [PC.injDone false, PC.injDone true, PC.injDone false] := by decide
    rw [hfin] at hpc
    simp only [List.mem_cons, List.not_mem_nil, or_false] at hpc
    rcases hpc with h | h | h <;> (subst h; intro hno; cases hno)
  exact ⟨((C3_inject_conn_true_exactly_once ⟨true, true, none⟩ 3 [1, 0, 2]).2.1
      hdone (by omega)).1,
    ((C3_inject_conn_true_exactly_once ⟨true, true, none⟩ 3 [1, 0, 2]).2.1
      hdone (by omega)).2⟩

/-!
## C6: after `Start()` + `InjectConn()`, `Wait()` blocks until the child
exits and returns the exit error

The scenario machine has four routines: the background goroutine (from
its `<-p.connCh` receive), one `InjectConn` call, one `Wait()` call and
the environment event making the child exit.  Every reachable
configuration is `mkC6 er b j w v` for an allowed program-counter
quadruple (`okPCs`): the shared state is a function of the four program
counters, and the finite closure check `c6check` verifies (by evaluation)
that every step from every allowed quadruple lands on an allowed
quadruple.  The `okPCs` constraints record exactly the claim: the `Wait()`
caller can be past its `p.waitMx.Lock()` (`wRet`/`wDone`) only once the
background goroutine has released the lock, which happens only after
`p.waitErr = p.cmd.Wait()` ran, which requires the child to have
exited. -/

def bgIdx : PC → Nat
  | .bgAwait => 0
  | .bgDiscStart => 1
  | .bgCmdWait => 2
  | .bgCloseConn => 3
  | .bgCloseCM => 4
  | .bgCloseLM => 5
  | .bgUnlock => 6
  | .bgDiscStop => 7
  | .bgDone => 8
  | _ => 9

def env6 (er : Option Err) : Env := { spawnOK := true, sigOK := true, exitRes := er }

/-- The unique shared state compatible with the four program counters of
the C6 scenario (background goroutine, `InjectConn`, `Wait()`,
environment). -/
def mkC6 (er : Option Err) (b j w v : PC) : Cfg :=
  ({ isRunning := true
     mxLocked := decide (bgIdx b ≤ 6) || (w == PC.wRet)
     waitErr := if 3 ≤ bgIdx b then er else none
     onceDone := j == PC.injDone true
     connSet := j == PC.injDone true
     gwBuilt := j == PC.injDone true
     chBuf := (j == PC.injDone true) && (b == PC.bgAwait)
     chClosed := j == PC.injDone true
     spawned := true
     goLaunched := true
     exited := v == PC.envDone
     discOn := decide (2 ≤ bgIdx b)
     discStopped := decide (8 ≤ bgIdx b)
     connClosed := decide (4 ≤ bgIdx b)
     cmClosed := decide (5 ≤ bgIdx b)
     lmClosed := decide (6 ≤ bgIdx b) },
   [b, j, w, v])

/-- Allowed program-counter quadruples of the C6 scenario. -/
def okPCs (er : Option Err) (b j w v : PC) : Bool :=
  decide (bgIdx b ≤ 8) &&
  ((j == PC.inj) || (j == PC.injDone true)) &&
  ((w == PC.wCheck) || (w == PC.wLock) || (w == PC.wRet) || (w == PC.wDone er)) &&
  ((v == PC.envExit) || (v == PC.envDone)) &&
  (!(decide (1 ≤ bgIdx b)) || (j == PC.injDone true)) &&
  (!(decide (3 ≤ bgIdx b)) || (v == PC.envDone)) &&
  (!((w == PC.wRet) || (w == PC.wDone er)) || decide (7 ≤ bgIdx b))

def quadOf (c : Cfg) : Option (PC × PC × PC × PC) :=
  match c.2 with
  | [b, j, w, v] => some (b, j, w, v)
  | _ => none

def c6step (er : Option Err) (b j w v : PC) (i : Nat) : Bool :=
  match quadOf (stepAt (env6 er) (mkC6 er b j w v) i) with
  | some (b2, j2, w2, v2) =>
      okPCs er b2 j2 w2 v2 &&
        decide (stepAt (env6 er) (mkC6 er b j w v) i = mkC6 er b2 j2 w2 v2)
  | none => false

def bgList : List PC :=
  [.bgAwait, .bgDiscStart, .bgCmdWait, .bgCloseConn, .bgCloseCM, .bgCloseLM,
   .bgUnlock, .bgDiscStop, .bgDone]

def injList : List PC := [.inj, .injDone true]

def wList (er : Option Err) : List PC := [.wCheck, .wLock, .wRet, .wDone er]

def envList : List PC := [.envExit, .envDone]

def errList : List (Option Err) :=
  [none, some .alreadyRunning, some .notStarted, some .spawnFail,
   some .signalFail, some .exitFail]

/-- Closure: every step from every allowed quadruple lands on an allowed
quadruple, with the state given by `mkC6`. -/
def c6check : Bool :=
  errList.all fun er =>
    bgList.all fun b =>
      injList.all fun j =>
        (wList er).all fun w =>
          envList.all fun v =>
            !(okPCs er b j w v) || (List.range 4).all fun i => c6step er b j w v i

/-- In every allowed quadruple where the `Wait()` caller has returned
`r`, the child has exited and `r` is the `cmd.Wait()` exit error. -/
def c6prop (er : Option Err) (b j w v : PC) : Bool :=
  match w with
  | .wDone r => decide (r = er) && (mkC6 er b j w v).1.exited
  | _ => true

def c6propcheck : Bool :=
  errList.all fun er =>
    bgList.all fun b =>
      injList.all fun j =>
        (wList er).all fun w =>
          envList.all fun v =>
            !(okPCs er b j w v) || c6prop er b j w v

theorem c6check_true : c6check = true := by decide

theorem c6propcheck_true : c6propcheck = true := by decide

theorem mem_errList (er : Option Err) : er ∈ errList := by
  cases er with
  | none => simp [errList]
  | some e => cases e <;> simp [errList]

theorem okPCs_mem (er : Option Err) (b j w v : PC) (h : okPCs er b j w v = true) :
    b ∈ bgList ∧ j ∈ injList ∧ w ∈ wList er ∧ v ∈ envList := by
  unfold okPCs at h
  simp only [Bool.and_eq_true, Bool.or_eq_true, decide_eq_true_eq, beq_iff_eq] at h
  obtain ⟨⟨⟨⟨⟨⟨hb, hj⟩, hw⟩, hv⟩, -⟩, -⟩, -⟩ := h
  refine ⟨?_, ?_, ?_, ?_⟩
  · cases b <;> first
      | exact absurd (show (9 : Nat) ≤ 8 from hb) (by omega)
      | simp [bgList]
  · rcases hj with h | h <;> (subst h; simp [injList])
  · rcases hw with ((h | h) | h) | h <;> (subst h; simp [wList])
  · rcases hv with h | h <;> (subst h; simp [envList])

theorem c6step_sound (er : Option Err) (b j w v : PC) (i : Nat)
    (h : c6step er b j w v i = true) :
    ∃ b2 j2 w2 v2, okPCs er b2 j2 w2 v2 = true ∧
      stepAt (env6 er) (mkC6 er b j w v) i = mkC6 er b2 j2 w2 v2 := by
  unfold c6step at h
  cases hq : quadOf (stepAt (env6 er) (mkC6 er b j w v) i) with
  | none => rw [hq] at h; cases h
  | some q =>
      obtain ⟨b2, j2, w2, v2⟩ := q
      rw [hq] at h
      simp only [Bool.and_eq_true, decide_eq_true_eq] at h
      exact ⟨b2, j2, w2, v2, h.1, h.2⟩

theorem c6step_all (er : Option Err) (b j w v : PC) (hok : okPCs er b j w v = true)
    (i : Nat) (hi : i < 4) : c6step er b j w v i = true := by
  obtain ⟨hbmem, hjmem, hwmem, hvmem⟩ := okPCs_mem er b j w v hok
  have hch := c6check_true
  unfold c6check at hch
  rw [List.all_eq_true] at hch
  have h1 := hch er (mem_errList er)
  rw [List.all_eq_true] at h1
  have h2 := h1 b hbmem
  rw [List.all_eq_true] at h2
  have h3 := h2 j hjmem
  rw [List.all_eq_true] at h3
  have h4 := h3 w hwmem
  rw [List.all_eq_true] at h4
  have h5 := h4 v hvmem
  rw [hok] at h5
  simp only [Bool.not_true, Bool.false_or] at h5
  rw [List.all_eq_true] at h5
  exact h5 i (List.mem_range.mpr hi)

theorem stepAt_c6Allowed (er : Option Err) (c : Cfg) (i : Nat)
    (h : ∃ b j w v, okPCs er b j w v = true ∧ c = mkC6 er b j w v) :
    ∃ b j w v, okPCs er b j w v = true ∧ stepAt (env6 er) c i = mkC6 er b j w v := by
  obtain ⟨b, j, w, v, hok, rfl⟩ := h
  by_cases hi : i < 4
  · exact c6step_sound er b j w v i (c6step_all er b j w v hok i hi)
  · have hg : (mkC6 er b j w v).2.get? i = none := by
      rw [List.get?_eq_none]
      show 4 ≤ i
      omega
    rw [stepAt_eq_none _ _ _ hg]
    exact ⟨b, j, w, v, hok, rfl⟩

theorem run_c6Allowed (er : Option Err) :
    ∀ (l : List Nat) (c : Cfg),
      (∃ b j w v, okPCs er b j w v = true ∧ c = mkC6 er b j w v) →
      ∃ b j w v, okPCs er b j w v = true ∧ run (env6 er) c l = mkC6 er b j w v := by
  intro l
  induction l with
  | nil => intro c h; exact h
  | cons i l ih => intro c h; exact ih (stepAt (env6 er) c i) (stepAt_c6Allowed er c i h)

theorem c6prop_all (er : Option Err) (b j v : PC) (r : Option Err)
    (hok : okPCs er b j (PC.wDone r) v = true) :
    r = er ∧ (mkC6 er b j (PC.wDone r) v).1.exited = true := by
  obtain ⟨hbmem, hjmem, hwmem, hvmem⟩ := okPCs_mem er b j (PC.wDone r) v hok
  have hch := c6propcheck_true
  unfold c6propcheck at hch
  rw [List.all_eq_true] at hch
  have h1 := hch er (mem_errList er)
  rw [List.all_eq_true] at h1
  have h2 := h1 b hbmem
  rw [List.all_eq_true] at h2
  have h3 := h2 j hjmem
  rw [List.all_eq_true] at h3
  have h4 := h3 (PC.wDone r) hwmem
  rw [List.all_eq_true] at h4
  have h5 := h4 v hvmem
  rw [hok] at h5
  simp only [Bool.not_true, Bool.false_or] at h5
  unfold c6prop at h5
  simp only [Bool.and_eq_true, decide_eq_true_eq] at h5
  exact h5

/-- The C6 scenario's initial configuration: background goroutine waiting
at `<-p.connCh`, one pending `InjectConn`, one pending `Wait()`, child
about to run. -/
def c6init (er : Option Err) : Cfg := mkC6 er .bgAwait .inj .wCheck .envExit

theorem okPCs_init (er : Option Err) : okPCs er .bgAwait .inj .wCheck .envExit = true := by
  cases er with
  | none => decide
  | some e => cases e <;> decide

/-- C6: in the scenario "successful `Start()`, then `InjectConn()`
succeeds, a `Wait()` call and the child's exit race arbitrarily", for
every exit result `er` of `cmd.Wait()` (`none` = clean exit) and every
schedule, whenever the `Wait()` call has returned a value `r`, the child
process has actually exited and `r` is exactly `er` — so `Wait()` cannot
return before the process exit, and returns precisely the recorded exit
error. -/
theorem C6_wait_returns_exit_error (er : Option Err) (l : List Nat) (r : Option Err)
    (h : (run (env6 er) (c6init er) l).2.get? 2 = some (PC.wDone r)) :
    r = er ∧ (run (env6 er) (c6init er) l).1.exited = true := by
  obtain ⟨b, j, w, v, hok, heq⟩ := run_c6Allowed er l (c6init er)
    ⟨.bgAwait, .inj, .wCheck, .envExit, okPCs_init er, rfl⟩
  rw [heq] at h ⊢
  have hw : w = PC.wDone r := by
    have hg : (mkC6 er b j w v).2.get? 2 = some w := rfl
    rw [hg] at h
    exact Option.some.inj h
  subst hw
  exact c6prop_all er b j v r hok

theorem C6_witness :
    (run (env6 (some .exitFail)) (c6init (some .exitFail))
        [1, 0, 0, 3, 0, 0, 0, 0, 0, 2, 2, 2]).2.get? 2 =
      some (PC.wDone (some Err.exitFail)) ∧
    (run (env6 (some .exitFail)) (c6init (some .exitFail))
        [1, 0, 0, 3, 0, 0, 0, 0, 0, 2, 2, 2]).1.exited = true :=
  ⟨by decide,
   (C6_wait_returns_exit_error (some .exitFail) [1, 0, 0, 3, 0, 0, 0, 0, 0, 2, 2, 2]
      (some .exitFail) (by decide)).2⟩
